import Mathlib

/-!
Shallow embedding of the SWE-research-bot scraping pipeline.

The repository scrapes job postings: a discovery phase finds listing cards on
a careers search page (`src/scraper/discovery.py`), a detail-extraction phase
visits each listing with retries (`src/scraper/extractor.py`), and a batch
driver partitions the new listings, extracts batch by batch and persists each
batch before the next one starts (`src/cli/commands.py`, `_scrape_async`).
The browser session lifecycle and infinite scroll live in
`src/scraper/browser.py`; URL fingerprints in `src/storage/database.py`.

Python strings are modelled as `List Char`; Python `None`-able values as
`Option`; the browser and database side effects as explicit oracles
(functions describing what each page query would return) and explicit state.
-/

/-- Python strings are modelled as lists of characters. -/
abbrev PyStr := List Char

/-- Build a `PyStr` from a Lean string literal. -/
def pystr (s : String) : PyStr := s.data

/-- Python `str.strip()`: drop leading and trailing whitespace. -/
def pyStrip (s : PyStr) : PyStr :=
  ((s.dropWhile Char.isWhitespace).reverse.dropWhile Char.isWhitespace).reverse

/-- Python `str.startswith(p)`. -/
def pyStartsWith (s p : PyStr) : Bool := p.isPrefixOf s

/-- Python `a or b` on two optional strings: `None` and `""` are falsy. -/
def pyOr (a b : Option PyStr) : Option PyStr :=
  match a with
  | some s => if s.isEmpty then b else some s
  | none => b

/-- Python `a or b` where `b` is a plain string. -/
def pyOrStr (a : Option PyStr) (b : PyStr) : PyStr :=
  match a with
  | some s => if s.isEmpty then b else s
  | none => b

/-- Python `'key' in selectors and selectors['key']`: an optional selector is
used only when present and non-empty (the empty string is falsy). -/
def selOpt : Option PyStr → Option PyStr
  | some s => if s.isEmpty then none else some s
  | none => none

/-- Python `category.replace(' ', '+')` used to build search URLs. -/
def pyReplaceSpacePlus (s : PyStr) : PyStr :=
  s.map (fun c => if c = ' ' then '+' else c)

/-! ## Contiguous batches

`_scrape_async` partitions the new listings with
`for batch_start in range(0, len(new_jobs), batch_size)` and slices
`new_jobs[batch_start:batch_start + batch_size]`; `extract_multiple_jobs`
uses the same scheme.  The fuel argument is the list length: each step
consumes at least one element when `bs > 0`. -/

def batchesGo (bs : Nat) : Nat → List α → List (List α)
  | _, [] => []
  | 0, _ :: _ => []
  | fuel + 1, x :: xs => ((x :: xs).take bs) :: batchesGo bs fuel ((x :: xs).drop bs)

/-- Partition a list into contiguous chunks of size `bs` (final chunk may be
shorter).  In the source `bs` is always positive (hard-coded 20). -/
def batches (bs : Nat) (xs : List α) : List (List α) :=
  if bs = 0 then [] else batchesGo bs xs.length xs

theorem batchesGo_nil (bs f : Nat) : batchesGo bs f ([] : List α) = [] := by
  cases f <;> rfl

theorem batchesGo_fuel_irrel (bs : Nat) (hbs : 0 < bs) :
    ∀ f1 f2 (xs : List α), xs.length ≤ f1 → xs.length ≤ f2 →
      batchesGo bs f1 xs = batchesGo bs f2 xs := by
  intro f1
  induction f1 using Nat.strong_induction_on with
  | _ f1 ih =>
    intro f2 xs h1 h2
    match f1, f2, xs with
    | f1, f2, [] => rw [batchesGo_nil, batchesGo_nil]
    | 0, _, x :: xs => simp at h1
    | _ + 1, 0, x :: xs => simp at h2
    | g1 + 1, g2 + 1, x :: xs =>
      simp only [batchesGo]
      congr 1
      have hlen : ((x :: xs).drop bs).length ≤ g1 := by
        simp only [List.length_drop]
        omega
      have hlen2 : ((x :: xs).drop bs).length ≤ g2 := by
        simp only [List.length_drop]
        omega
      exact ih g1 (Nat.lt_succ_self g1) g2 _ hlen hlen2

theorem batches_nil (bs : Nat) : batches bs ([] : List α) = [] := by
  unfold batches
  cases bs <;> simp [batchesGo]

theorem batches_cons (bs : Nat) (hbs : 0 < bs) (xs : List α) (hxs : xs ≠ []) :
    batches bs xs = xs.take bs :: batches bs (xs.drop bs) := by
  obtain ⟨x, t, rfl⟩ := List.exists_cons_of_ne_nil hxs
  unfold batches
  have hbs' : ¬ bs = 0 := Nat.pos_iff_ne_zero.mp hbs
  simp only [hbs', if_false]
  have hlen : (x :: t).length = t.length + 1 := by simp
  rw [hlen]
  simp only [batchesGo]
  congr 1
  apply batchesGo_fuel_irrel bs hbs
  · simp only [List.length_drop]
    omega
  · exact Nat.le_refl _

theorem batches_flatten (bs : Nat) (hbs : 0 < bs) (xs : List α) :
    (batches bs xs).flatten = xs := by
  generalize hn : xs.length = n
  induction n using Nat.strong_induction_on generalizing xs with
  | _ n ih =>
    cases xs with
    | nil => simp [batches_nil]
    | cons x t =>
      rw [batches_cons bs hbs _ (by simp)]
      simp only [List.flatten_cons]
      rw [ih ((x :: t).drop bs).length ?_ _ rfl]
      · exact List.take_append_drop bs (x :: t)
      · subst hn
        simp only [List.length_drop, List.length_cons]
        omega

/-! ## URL resolution and normalization

`src/scraper/discovery.py` (`extract_job_from_card`) normalizes a card's link:
`if job_url and not job_url.startswith('http'): job_url = urljoin(base_url, job_url)`.
`urljoin` is Python's `urllib.parse.urljoin`; the model below covers its
behavior on the URL shapes the pipeline produces (absolute `scheme://` bases;
targets that are empty, already have a scheme, are protocol-relative `//...`,
are root-relative `/...`, or are path-relative). -/

/-- Characters allowed in a URL scheme. -/
def isSchemeChar (c : Char) : Bool :=
  c.isAlpha || c.isDigit || c = '+' || c = '-' || c = '.'

/-- Split off a leading `scheme:`; `none` when the URL has no scheme. -/
def schemeSplit (u : PyStr) : Option (PyStr × PyStr) :=
  let s := u.takeWhile isSchemeChar
  match s, u.drop s.length with
  | c :: _, ':' :: rest => if c.isAlpha then some (s, rest) else none
  | _, _ => none

/-- Split an absolute URL `scheme://authority/path...` into its three parts;
`none` when the URL is not of that shape. -/
def splitAbs (u : PyStr) : Option (PyStr × PyStr × PyStr) :=
  match schemeSplit u with
  | some (sch, rest) =>
    if pyStartsWith rest (pystr "//") then
      let after := rest.drop 2
      some (sch, after.takeWhile (fun c => c != '/'), after.dropWhile (fun c => c != '/'))
    else none
  | none => none

/-- Everything up to and including the last `'/'` (empty when there is none). -/
def dirOf (p : PyStr) : PyStr := (p.reverse.dropWhile (fun c => c != '/')).reverse

/-- Directory of a path component: strip query/fragment, keep up to the last
slash, defaulting to the root path. -/
def pathDir (p : PyStr) : PyStr :=
  let q := p.takeWhile (fun c => c != '?' && c != '#')
  let d := dirOf q
  if d.isEmpty then pystr "/" else d

/-- Model of `urllib.parse.urljoin(base, url)` on the pipeline's URL shapes. -/
def urljoin (base url : PyStr) : PyStr :=
  if url.isEmpty then base
  else if (schemeSplit url).isSome then url
  else
    match splitAbs base with
    | some (sch, auth, path) =>
      if pyStartsWith url (pystr "//") then sch ++ ':' :: url
      else if pyStartsWith url (pystr "/") then sch ++ pystr "://" ++ auth ++ url
      else sch ++ pystr "://" ++ auth ++ pathDir path ++ url
    | none =>
      if pyStartsWith url (pystr "/") then url
      else dirOf base ++ url

/-- The normalization applied during discovery (`extract_job_from_card`):
relative URLs are resolved against the search URL, URLs already starting
with `http` are left alone (and so is the falsy empty string). -/
def normalize_url (base url : PyStr) : PyStr :=
  if url ≠ [] ∧ pyStartsWith url (pystr "http") = false then urljoin base url else url

/-! ## URL fingerprints

`src/storage/database.py`:
`generate_url_hash(url) = hashlib.sha256(url.encode()).hexdigest()`.
`hashlib.sha256` is the Python standard library's SHA-256 (FIPS 180-4),
modelled here over natural numbers with explicit `% 2^32` word arithmetic;
`url.encode()` is UTF-8 encoding. -/

def w32 : Nat := 4294967296

def mask32 : Nat := 4294967295

def add32 (a b : Nat) : Nat := (a + b) % w32

def rotr32 (x n : Nat) : Nat := ((x >>> n) ||| (x <<< (32 - n))) % w32

def shr32 (x n : Nat) : Nat := x >>> n

def not32 (x : Nat) : Nat := Nat.xor x mask32

def ch32 (x y z : Nat) : Nat := Nat.xor (Nat.land x y) (Nat.land (not32 x) z)

def maj32 (x y z : Nat) : Nat :=
  Nat.xor (Nat.xor (Nat.land x y) (Nat.land x z)) (Nat.land y z)

def bsig0 (x : Nat) : Nat := Nat.xor (Nat.xor (rotr32 x 2) (rotr32 x 13)) (rotr32 x 22)

def bsig1 (x : Nat) : Nat := Nat.xor (Nat.xor (rotr32 x 6) (rotr32 x 11)) (rotr32 x 25)

def ssig0 (x : Nat) : Nat := Nat.xor (Nat.xor (rotr32 x 7) (rotr32 x 18)) (shr32 x 3)

def ssig1 (x : Nat) : Nat := Nat.xor (Nat.xor (rotr32 x 17) (rotr32 x 19)) (shr32 x 10)

/-- Big-endian byte expansion (`k` bytes). -/
def toBytesBE : Nat → Nat → List Nat
  | 0, _ => []
  | k + 1, n => toBytesBE k (n / 256) ++ [n % 256]

/-- SHA-256 message padding: `0x80`, zeros to 56 mod 64, 8-byte bit length. -/
def sha256_pad (msg : List Nat) : List Nat :=
  let L := msg.length
  msg ++ [128] ++ List.replicate ((64 - ((L + 9) % 64)) % 64) 0 ++ toBytesBE 8 (L * 8)

/-- Pack bytes into big-endian 32-bit words. -/
def bytesToWords : List Nat → List Nat
  | b0 :: b1 :: b2 :: b3 :: rest =>
    (((b0 * 256 + b1) * 256 + b2) * 256 + b3) :: bytesToWords rest
  | _ => []

/-- Extend the 16 block words by `k` schedule words. -/
def schedExtend (w : List Nat) : Nat → List Nat
  | 0 => w
  | k + 1 =>
    let n := w.length
    schedExtend
      (w ++ [add32 (add32 (ssig1 (w.getD (n - 2) 0)) (w.getD (n - 7) 0))
               (add32 (ssig0 (w.getD (n - 15) 0)) (w.getD (n - 16) 0))]) k

def sha_K : List Nat :=
  [1116352408, 1899447441, 3049323471, 3921009573, 961987163, 1508970993,
   2453635748, 2870763221, 3624381080, 310598401, 607225278, 1426881987,
   1925078388, 2162078206, 2614888103, 3248222580, 3835390401, 4022224774,
   264347078, 604807628, 770255983, 1249150122, 1555081692, 1996064986,
   2554220882, 2821834349, 2952996808, 3210313671, 3336571891, 3584528711,
   113926993, 338241895, 666307205, 773529912, 1294757372, 1396182291,
   1695183700, 1986661051, 2177026350, 2456956037, 2730485921, 2820302411,
   3259730800, 3345764771, 3516065817, 3600352804, 4094571909, 275423344,
   430227734, 506948616, 659060556, 883997877, 958139571, 1322822218,
   1537002063, 1747873779, 1955562222, 2024104815, 2227730452, 2361852424,
   2428436474, 2756734187, 3204031479, 3329325298]

def sha_H0 : List Nat :=
  [1779033703, 3144134277, 1013904242, 2773480762,
   1359893119, 2600822924, 528734635, 1541459225]

/-- One round of the SHA-256 compression function on state `[a,b,c,d,e,f,g,h]`;
`kw` is the (round constant, schedule word) pair. -/
def sha_round (st : List Nat) (kw : Nat × Nat) : List Nat :=
  match st with
  | [a, b, c, d, e, f, g, h] =>
    let t1 := add32 (add32 (add32 h (bsig1 e)) (add32 (ch32 e f g) kw.1))
      kw.2
    let t2 := add32 (bsig0 a) (maj32 a b c)
    [add32 t1 t2, a, b, c, add32 d t1, e, f, g]
  | _ => st

/-- Compress one 64-byte block into the running hash words. -/
def sha_compress (hs : List Nat) (block : List Nat) : List Nat :=
  let st := ((sha_K.zip (schedExtend (bytesToWords block) 48)).foldl sha_round hs)
  (hs.zip st).map (fun p => add32 p.1 p.2)

/-- SHA-256 of a byte string, as the 8 final 32-bit hash words. -/
def sha256_words (msg : List Nat) : List Nat :=
  (batches 64 (sha256_pad msg)).foldl sha_compress sha_H0

/-- SHA-256 digest as a single natural number (big-endian word concatenation). -/
def sha256_nat (msg : List Nat) : Nat :=
  (sha256_words msg).foldl (fun acc w => acc * w32 + w) 0

def hexDigitChar (n : Nat) : Char := (pystr "0123456789abcdef").getD n '0'

/-- Fixed-width lowercase hex rendering (most significant digit first). -/
def toHexFixed : Nat → Nat → PyStr
  | 0, _ => []
  | k + 1, n => toHexFixed k (n / 16) ++ [hexDigitChar (n % 16)]

/-- Python's `.hexdigest()`: 64 lowercase hex characters. -/
def hexdigest (n : Nat) : PyStr := toHexFixed 64 n

/-- UTF-8 encoding of one character (Python `str.encode()`). -/
def utf8EncodeChar (c : Char) : List Nat :=
  let n := c.toNat
  if n < 128 then [n]
  else if n < 2048 then [192 + n / 64, 128 + n % 64]
  else if n < 65536 then [224 + n / 4096, 128 + (n / 64) % 64, 128 + n % 64]
  else [240 + n / 262144, 128 + (n / 4096) % 64, 128 + (n / 64) % 64, 128 + n % 64]

def utf8Encode (s : PyStr) : List Nat := s.foldr (fun c acc => utf8EncodeChar c ++ acc) []

/-- Model of `generate_url_hash` (`src/storage/database.py`): SHA-256 hex
digest of the UTF-8 encoded URL, the dedup fingerprint. -/
def generate_url_hash (url : PyStr) : PyStr := hexdigest (sha256_nat (utf8Encode url))

/-! ## Data model (`src/storage/models.py`, company selector configuration)

A `SelectorSet` is a dict of CSS selectors; `job_card`, `job_title`,
`job_link` and `detail_description` are accessed with `selectors[...]`
(required), the rest with guarded access (optional). -/

structure Selectors where
  job_card : PyStr
  job_title : PyStr
  job_link : PyStr
  job_location : Option PyStr
  job_team : Option PyStr
  detail_description : PyStr
  detail_title : Option PyStr
  detail_team : Option PyStr
  detail_location : Option PyStr
  detail_type : Option PyStr
deriving DecidableEq

/-- Model of `JobDiscovered` (pydantic). -/
structure JobDiscovered where
  url : PyStr
  title : PyStr
  location : Option PyStr
  team : Option PyStr
  url_hash : PyStr
  search_category : Option PyStr
deriving DecidableEq

/-- Model of `Job` (pydantic).  `extract_job_details` always passes a plain
string for `employment_type`, so it is `PyStr` here. -/
structure Job where
  company_id : Nat
  job_url : PyStr
  job_url_hash : PyStr
  title : PyStr
  team : Option PyStr
  location : Option PyStr
  employment_type : PyStr
  raw_description : Option PyStr
  processed : Bool
deriving DecidableEq

/-- Model of `Company` (the fields the scraping pipeline reads). -/
structure Company where
  name : PyStr
  careers_url : PyStr
  selectors : Selectors
  active : Bool

/-! ## Render session: `BrowserManager` (`src/scraper/browser.py`)

`start` acquires playwright, browser, context, page in that order, assigning
each `self.` field as it goes; a failure partway leaves the earlier fields
set.  `close` runs `if self.page: ... if self.context: ... if self.browser:
... if self.playwright: ...`, releasing only what is non-`None`. -/

structure BrowserManager where
  playwright : Option Nat
  browser : Option Nat
  context : Option Nat
  page : Option Nat
deriving DecidableEq

inductive Resource where
  | page : Resource
  | context : Resource
  | browser : Resource
  | playwright : Resource
deriving DecidableEq

/-- Acquisition order of `BrowserManager.start`. -/
def acquire_order : List Resource :=
  [Resource.playwright, Resource.browser, Resource.context, Resource.page]

/-- State of a `BrowserManager` whose `start` was interrupted after `k`
successful acquisitions (`k ≥ 4`: `start` completed). -/
def start_upto (k : Nat) : BrowserManager :=
  { playwright := if 1 ≤ k then some 1 else none
    browser := if 2 ≤ k then some 2 else none
    context := if 3 ≤ k then some 3 else none
    page := if 4 ≤ k then some 4 else none }

/-- The sequence of release operations `close` performs. -/
def close_trace (m : BrowserManager) : List Resource :=
  (if m.page.isSome then [Resource.page] else []) ++
    (if m.context.isSome then [Resource.context] else []) ++
      (if m.browser.isSome then [Resource.browser] else []) ++
        (if m.playwright.isSome then [Resource.playwright] else [])

/-- Whether a resource is currently open in a `BrowserManager`. -/
def openedIn (m : BrowserManager) : Resource → Bool
  | Resource.page => m.page.isSome
  | Resource.context => m.context.isSome
  | Resource.browser => m.browser.isSome
  | Resource.playwright => m.playwright.isSome

/-! ## Infinite scroll (`BrowserManager.infinite_scroll`)

The page is abstracted by its count oracle: `counts i` is what the `i`-th
`query_selector_all(selector)` call reports (`none`: the query raises, which
the code swallows and treats as "stop now").  Each loop iteration first
scrolls, then counts; the loop breaks when the count equals the previous one
(`previous_count` starts at 0) and otherwise increments `scroll_count`, so the
fuel `max_scrolls - scroll_count` decreases exactly on non-breaking steps. -/

structure ScrollResult where
  count : Nat
  scroll_count : Nat
  scrolls : Nat
deriving DecidableEq

def infiniteScrollAux (counts : Nat → Option Nat) : Nat → Nat → Nat → Nat → ScrollResult
  | 0, idx, prev, sc => ⟨prev, sc, idx⟩
  | fuel + 1, idx, prev, sc =>
    match counts idx with
    | none => ⟨prev, sc, idx + 1⟩
    | some cur =>
      if cur = prev then ⟨prev, sc, idx + 1⟩
      else infiniteScrollAux counts fuel (idx + 1) cur (sc + 1)

/-- Model of `BrowserManager.infinite_scroll`: returns the final
`previous_count`, the final `scroll_count` (what the code logs as the number
of scrolls), and the number of scroll-and-count iterations executed. -/
def infinite_scroll (counts : Nat → Option Nat) (max_scrolls : Nat := 20) : ScrollResult :=
  infiniteScrollAux counts max_scrolls 0 0 0

/-! ## Listing discovery (`src/scraper/discovery.py`)

A card element is abstracted by what its sub-queries return: `text s` is the
`inner_text` of the first match of sub-selector `s` (`none`: no match), and
`href s` is `none` when the link element is missing, `some a` when it exists
with `get_attribute('href') = a`.  `cardError` models a card whose extraction
raises (caught per card).  A search page is abstracted by its failure points
and its final card list (`cards = none`: the re-query raises). -/

structure Card where
  text : PyStr → Option PyStr
  href : PyStr → Option (Option PyStr)

inductive CardOutcome where
  | cardError : CardOutcome
  | card : Card → CardOutcome

structure SearchPage where
  navOk : Bool
  cardsAppear : Bool
  scrollOk : Bool
  counts : Nat → Option Nat
  cards : Option (List CardOutcome)

/-- Python `elem.inner_text()` followed by `t.strip() if t else None`. -/
def textOrNone (t : Option PyStr) : Option PyStr :=
  match t with
  | some t => if t.isEmpty then none else some (pyStrip t)
  | none => none

/-- Model of `extract_job_from_card`: pull title, link (normalized), optional
location/team; reject cards missing a truthy url or title; fingerprint the
normalized URL. -/
def extract_job_from_card (c : Card) (sel : Selectors) (base_url : PyStr) :
    Option JobDiscovered :=
  let title := textOrNone (c.text sel.job_title)
  let job_url0 : Option PyStr :=
    match c.href sel.job_link with
    | some a => a
    | none => none
  let job_url := job_url0.map (normalize_url base_url)
  let location :=
    match selOpt sel.job_location with
    | some s => textOrNone (c.text s)
    | none => none
  let team :=
    match selOpt sel.job_team with
    | some s => textOrNone (c.text s)
    | none => none
  match job_url, title with
  | some u, some t =>
    if u.isEmpty || t.isEmpty then none
    else some ⟨u, t, location, team, generate_url_hash u, none⟩
  | _, _ => none

/-- Model of `discover_jobs`: the whole body runs under a `try` that returns
`[]` on any exception; the inner `wait_for_selector` timeout also returns
`[]`; the `infinite_scroll` result is only logged; a per-card exception or a
malformed card skips just that card. -/
def discover_jobs (page : SearchPage) (search_url : PyStr) (sel : Selectors) :
    List JobDiscovered :=
  if page.navOk = false then []
  else if page.cardsAppear = false then []
  else if page.scrollOk = false then []
  else
    let _ := infinite_scroll page.counts 20
    match page.cards with
    | none => []
    | some cards =>
      cards.filterMap (fun co =>
        match co with
        | CardOutcome.cardError => none
        | CardOutcome.card c => extract_job_from_card c sel search_url)

/-- Search URL construction in `discover_all_jobs_for_company`:
`f"{company.careers_url}{category.replace(' ', '+')}"`. -/
def search_url_for (company : Company) (category : PyStr) : PyStr :=
  company.careers_url ++ pyReplaceSpacePlus category

/-- One category's contribution to the fingerprint-keyed merge dict: a job is
added (stamped with the category) only when its `url_hash` is not yet a key;
otherwise it is skipped. -/
def addDiscovered (acc : List JobDiscovered) (category : PyStr)
    (jobs : List JobDiscovered) : List JobDiscovered :=
  jobs.foldl
    (fun acc j =>
      if acc.any (fun k => k.url_hash == j.url_hash) then acc
      else acc ++ [{ j with search_category := some category }])
    acc

/-- Model of `discover_all_jobs_for_company`: one browser session, one
`discover_jobs` call per category (the page each search URL yields is given
by the oracle `pages`), merged into the insertion-ordered dedup dict. -/
def discover_all_jobs_for_company (pages : PyStr → SearchPage) (company : Company)
    (search_categories : List PyStr) : List JobDiscovered :=
  search_categories.foldl
    (fun acc category =>
      addDiscovered acc category
        (discover_jobs (pages (search_url_for company category))
          (search_url_for company category) company.selectors))
    []

/-! ## Detail extraction (`src/scraper/extractor.py`)

A detail page is abstracted by `page s`: the `inner_text` of the first match
of selector `s`, or `none` when nothing matches.  One attempt of
`extract_job_details` either raises before the description wait (`navError`),
times out waiting for `detail_description` (`noDescription`), or reaches
field extraction on some page state (`pageReady`). -/

abbrev DetailPage := PyStr → Option PyStr

structure JobFields where
  title : Option PyStr
  raw_description : Option PyStr
  team : Option PyStr
  location : Option PyStr
  employment_type : Option PyStr
deriving DecidableEq

/-- Model of `_extract_fields`: title via `detail_title` (default `h1`);
description via `detail_description` with fallback chain `main`, `article`,
`body`; optional team/location/type only when their selector is configured
and non-empty.  Every extracted text is stripped; no truthiness checks. -/
def extract_fields (page : DetailPage) (sel : Selectors) : JobFields :=
  let title := (page (sel.detail_title.getD (pystr "h1"))).map pyStrip
  let desc :=
    match page sel.detail_description with
    | some t => some (pyStrip t)
    | none =>
      match page (pystr "main") with
      | some t => some (pyStrip t)
      | none =>
        match page (pystr "article") with
        | some t => some (pyStrip t)
        | none =>
          match page (pystr "body") with
          | some t => some (pyStrip t)
          | none => none
  let team :=
    match selOpt sel.detail_team with
    | some s => (page s).map pyStrip
    | none => none
  let location :=
    match selOpt sel.detail_location with
    | some s => (page s).map pyStrip
    | none => none
  let etype :=
    match selOpt sel.detail_type with
    | some s => (page s).map pyStrip
    | none => none
  ⟨title, desc, team, location, etype⟩

inductive AttemptOutcome where
  | navError : AttemptOutcome
  | noDescription : AttemptOutcome
  | pageReady : DetailPage → AttemptOutcome

def AttemptOutcome.isFailure : AttemptOutcome → Bool
  | AttemptOutcome.pageReady _ => false
  | _ => true

structure ExtractResult where
  job : Option Job
  attempts : Nat
  backoffs : Nat

/-- The `Job` built on a successful attempt: discovered data as fallback via
Python `or` for title/team/location, `job_data.get('employment_type',
'Full-time')` for the employment type (a plain `dict.get`: a present-but-empty
value is returned as is). -/
def mkExtractedJob (page : DetailPage) (jd : JobDiscovered) (company_id : Nat)
    (sel : Selectors) : Job :=
  let job_data := extract_fields page sel
  { company_id := company_id
    job_url := jd.url
    job_url_hash := jd.url_hash
    title := pyOrStr job_data.title jd.title
    team := pyOr job_data.team jd.team
    location := pyOr job_data.location jd.location
    employment_type := job_data.employment_type.getD (pystr "Full-time")
    raw_description := job_data.raw_description
    processed := false }

/-- The `for attempt in range(max_retries)` loop: arguments are the current
attempt index, the remaining iterations, and the backoff waits so far.  A
failing attempt with iterations remaining waits the fixed backoff and
retries; the last one returns `None`. -/
def extractAttempts (outcomes : Nat → AttemptOutcome) (jd : JobDiscovered)
    (company_id : Nat) (sel : Selectors) : Nat → Nat → Nat → ExtractResult
  | attempt, 0, backoffs => ⟨none, attempt, backoffs⟩
  | attempt, remaining + 1, backoffs =>
    match outcomes attempt with
    | AttemptOutcome.pageReady page =>
      ⟨some (mkExtractedJob page jd company_id sel), attempt + 1, backoffs⟩
    | _ =>
      if remaining = 0 then ⟨none, attempt + 1, backoffs⟩
      else extractAttempts outcomes jd company_id sel (attempt + 1) remaining (backoffs + 1)

/-- Model of `extract_job_details`. -/
def extract_job_details (outcomes : Nat → AttemptOutcome) (jd : JobDiscovered)
    (company_id : Nat) (sel : Selectors) (max_retries : Nat := 3) : ExtractResult :=
  extractAttempts outcomes jd company_id sel 0 max_retries 0

/-- Python `if job: all_extracted_jobs.append(job)`. -/
def appendIfSome {b : Type} (a : List b) (j : Option b) : List b :=
  match j with
  | some j => a ++ [j]
  | none => a

/-- Model of `extract_multiple_jobs`: batched double loop appending each
successfully extracted job to one accumulator (`outcomes l` is listing `l`'s
per-attempt page behavior). -/
def extract_multiple_jobs (outcomes : JobDiscovered → Nat → AttemptOutcome)
    (jobs_discovered : List JobDiscovered) (company_id : Nat) (sel : Selectors)
    (batch_size : Nat := 20) : List Job :=
  (batches batch_size jobs_discovered).foldl
    (fun all_extracted batch =>
      batch.foldl
        (fun acc job_disc =>
          appendIfSome acc (extract_job_details (outcomes job_disc) job_disc company_id sel).job)
        all_extracted)
    []

/-! ## Batch pipeline driver (`_scrape_async`, `src/cli/commands.py`)

The per-company run after discovery: filter known fingerprints, apply the
test-mode job limit, then extract and persist batch by batch inside one
`try`; any exception marks the run failed with its message and stops
processing further batches, keeping what is already persisted.  `extract i b`
is the outcome of the `extract_multiple_jobs` call on batch `i` (`error e`:
an unrecovered exception, e.g. the browser fails to start). -/

inductive RunStatus where
  | running : RunStatus
  | completed : RunStatus
  | failed : RunStatus
deriving DecidableEq

structure RunRecord where
  status : RunStatus
  jobs_scraped : Option Nat
  error_message : Option PyStr
deriving DecidableEq

structure ScrapeOutcome where
  persisted : List Job
  run : RunRecord
deriving DecidableEq

/-- Python `if job_limit and len(new_jobs) > job_limit: new_jobs =
new_jobs[:job_limit]` — note `job_limit = 0` is falsy. -/
def apply_job_limit (new_jobs : List JobDiscovered) (job_limit : Option Nat) :
    List JobDiscovered :=
  match job_limit with
  | some l => if l ≠ 0 ∧ new_jobs.length > l then new_jobs.take l else new_jobs
  | none => new_jobs

def runBatchesGo (extract : Nat → List JobDiscovered → Except PyStr (List Job)) :
    Nat → List (List JobDiscovered) → List Job → ScrapeOutcome
  | _, [], saved => ⟨saved, ⟨RunStatus.completed, some saved.length, none⟩⟩
  | i, b :: rest, saved =>
    match extract i b with
    | Except.ok jobs => runBatchesGo extract (i + 1) rest (saved ++ jobs)
    | Except.error e => ⟨saved, ⟨RunStatus.failed, none, some e⟩⟩

/-- The batch-extraction phase of `_scrape_async` for one company, on the
already filtered and limited `new_jobs`: every job of a successful batch is
persisted (`db.add_job`) before the next batch starts; on a failed batch the
run is marked failed and no further batch runs. -/
def scrape_company_batches (extract : Nat → List JobDiscovered → Except PyStr (List Job))
    (batch_size : Nat) (new_jobs : List JobDiscovered) : ScrapeOutcome :=
  if new_jobs.isEmpty then ⟨[], ⟨RunStatus.completed, none, none⟩⟩
  else runBatchesGo extract 0 (batches batch_size new_jobs) []

/-! ## Theorems -/

/-- C8: `close` on any partial-initialization state of the render session
releases exactly the resources that were opened, in reverse order of
acquisition (page, context, browser, playwright); in particular, after a
`start` interrupted at any point `k`, `close` does not fail and releases
exactly the `k` acquired resources in reverse acquisition order. -/
theorem C8_close_partial_init :
    (∀ k : Nat, close_trace (start_upto k) = (acquire_order.take k).reverse) ∧
    (∀ (m : BrowserManager) (r : Resource), r ∈ close_trace m ↔ openedIn m r = true) ∧
    (∀ m : BrowserManager, List.Sublist (close_trace m) acquire_order.reverse) := by
  refine ⟨fun k => ?_, fun m r => ?_, fun m => ?_⟩
  · match k with
    | 0 => rfl
    | 1 => rfl
    | 2 => rfl
    | 3 => rfl
    | n + 4 =>
      have h1 : 1 ≤ n + 4 := by omega
      have h2 : 2 ≤ n + 4 := by omega
      have h3 : 3 ≤ n + 4 := by omega
      have h4 : 4 ≤ n + 4 := by omega
      have htake : acquire_order.take (n + 4) = acquire_order :=
        List.take_of_length_le (by simp [acquire_order])
      simp [start_upto, close_trace, h1, h2, h3, h4, htake, acquire_order]
  · rcases m with ⟨pl, br, cx, pg⟩
    cases pl <;> cases br <;> cases cx <;> cases pg <;> cases r <;>
      simp [close_trace, openedIn]
  · rcases m with ⟨pl, br, cx, pg⟩
    cases pl <;> cases br <;> cases cx <;> cases pg <;>
      simp [close_trace, acquire_order]

/-- C6: when no element matching the `job_card` selector appears within the
bounded wait (`wait_for_selector` times out), `discover_jobs` returns the
empty sequence instead of signalling an error. -/
theorem C6_no_cards_is_empty (page : SearchPage) (sel : Selectors) (url : PyStr)
    (h : page.cardsAppear = false) : discover_jobs page url sel = [] := by
  unfold discover_jobs
  rw [h]
  by_cases hn : page.navOk = false <;> simp [hn]

def selW6 : Selectors :=
  ⟨pystr "div.card", pystr "h2", pystr "a", none, none, pystr "div.desc",
    none, none, none, none⟩

def pageW6 : SearchPage :=
  ⟨true, false, true, fun _ => none, some []⟩

theorem C6_witness :
    pageW6.cardsAppear = false ∧ discover_jobs pageW6 (pystr "https://x.com/s?q=a") selW6 = [] :=
  ⟨rfl, C6_no_cards_is_empty pageW6 selW6 (pystr "https://x.com/s?q=a") rfl⟩

def jobsW7 : List JobDiscovered :=
  [⟨pystr "https://x.com/jobs/1", pystr "T1", none, none, pystr "h1", none⟩,
   ⟨pystr "https://x.com/jobs/2", pystr "T2", none, none, pystr "h2", none⟩]

/-- C7 counterexample: `job_limit = 0` is a set job limit, but Python's
`if job_limit and len(new_jobs) > job_limit` treats `0` as falsy, so the
2-element new-listing sequence is not truncated to at most 0 entries. -/
theorem C7_counterexample :
    apply_job_limit jobsW7 (some 0) = jobsW7 ∧
    (apply_job_limit jobsW7 (some 0)).length = 2 ∧
    ¬ ((apply_job_limit jobsW7 (some 0)).length ≤ 0) := by
  refine ⟨rfl, rfl, by decide⟩

/-- C7 (amended): for every run with jobLimit set to a nonzero value, the
new-listing sequence is truncated to at most jobLimit entries preserving
discovery order (`new_jobs[:job_limit]`), and for any positive batch size the
listings sent to extraction — the concatenation of all batches — are exactly
the first jobLimit listings in discovery order (in particular jobLimit=5 on
12 new listings extracts exactly the first 5, regardless of batchSize). -/
theorem C7_job_limit_truncation (jobs : List JobDiscovered) (l : Nat) (hl : l ≠ 0) :
    apply_job_limit jobs (some l) = jobs.take l ∧
    (∀ bs : Nat, 0 < bs →
      (batches bs (apply_job_limit jobs (some l))).flatten = jobs.take l) := by
  have h1 : apply_job_limit jobs (some l) = jobs.take l := by
    show (if l ≠ 0 ∧ jobs.length > l then jobs.take l else jobs) = jobs.take l
    by_cases h : jobs.length > l
    · rw [if_pos ⟨hl, h⟩]
    · rw [if_neg (by rintro ⟨_, hh⟩; exact h hh),
        List.take_of_length_le (by omega)]
  exact ⟨h1, fun bs hbs => by rw [h1, batches_flatten bs hbs]⟩

def jobsW7b : List JobDiscovered :=
  List.replicate 12 ⟨pystr "https://x.com/jobs/9", pystr "T", none, none, pystr "h9", none⟩

theorem C7_witness :
    (5 : Nat) ≠ 0 ∧ (0 : Nat) < 7 ∧
    apply_job_limit jobsW7b (some 5) = jobsW7b.take 5 ∧
    (batches 7 (apply_job_limit jobsW7b (some 5))).flatten = jobsW7b.take 5 :=
  ⟨by decide, by decide, (C7_job_limit_truncation jobsW7b 5 (by decide)).1,
    (C7_job_limit_truncation jobsW7b 5 (by decide)).2 7 (by decide)⟩

theorem infiniteScrollAux_spec (counts : Nat → Option Nat) :
    ∀ (fuel idx prev sc : Nat), sc = idx →
      (0 < idx → counts (idx - 1) = some prev) →
      (infiniteScrollAux counts fuel idx prev sc).scroll_count ≤ sc + fuel ∧
      ((infiniteScrollAux counts fuel idx prev sc).scroll_count < sc + fuel →
        (counts (infiniteScrollAux counts fuel idx prev sc).scroll_count = none ∨
          counts (infiniteScrollAux counts fuel idx prev sc).scroll_count =
            some (infiniteScrollAux counts fuel idx prev sc).count) ∧
        (1 ≤ (infiniteScrollAux counts fuel idx prev sc).scroll_count →
          counts ((infiniteScrollAux counts fuel idx prev sc).scroll_count - 1) =
            some (infiniteScrollAux counts fuel idx prev sc).count)) ∧
      ((infiniteScrollAux counts fuel idx prev sc).scroll_count = sc + fuel →
        0 < sc + fuel →
        counts (sc + fuel - 1) = some (infiniteScrollAux counts fuel idx prev sc).count) := by
  intro fuel
  induction fuel with
  | zero =>
    intro idx prev sc hsc hprev
    subst hsc
    simp only [infiniteScrollAux, Nat.add_zero]
    exact ⟨Nat.le_refl _, fun hlt => absurd hlt (Nat.lt_irrefl _), fun _ hpos => hprev hpos⟩
  | succ f ih =>
    intro idx prev sc hsc hprev
    subst hsc
    simp only [infiniteScrollAux]
    cases hc : counts sc with
    | none =>
      dsimp only
      refine ⟨by omega, fun _ => ⟨Or.inl hc, fun h1 => hprev (by omega)⟩, fun habs _ => ?_⟩
      exact absurd habs (by omega)
    | some cur =>
      dsimp only
      by_cases heq : cur = prev
      · rw [if_pos heq]
        dsimp only
        refine ⟨by omega, fun _ => ⟨Or.inr (heq ▸ hc), fun h1 => hprev (by omega)⟩,
          fun habs _ => absurd habs (by omega)⟩
      · rw [if_neg heq]
        have ihh := ih (sc + 1) cur (sc + 1) rfl (fun _ => by simpa using hc)
        refine ⟨by omega, fun hlt => ?_, fun heq2 hpos => ?_⟩
        · exact ihh.2.1 (by omega)
        · have := ihh.2.2 (by omega) (by omega)
          simpa using this

/-- C2: on a page whose matched-element count sequence is 5, 9, 9, the
infinite scroll returns 9 with a final `scroll_count` of 2 (the code's own
count of productive scroll iterations, as it logs); in general `scroll_count`
never exceeds `max_scrolls`, an early stop happens only on a query error or
on a count equal to the previous one (which, once at least one productive
iteration happened, means two consecutive equal counts, both equal to the
returned value), and on fuel exhaustion the returned value is the last
observed count. -/
theorem C2_infinite_scroll :
    (∀ (counts : Nat → Option Nat) (max_scrolls : Nat),
      counts 0 = some 5 → counts 1 = some 9 → counts 2 = some 9 →
      3 ≤ max_scrolls →
      (infinite_scroll counts max_scrolls).count = 9 ∧
      (infinite_scroll counts max_scrolls).scroll_count = 2) ∧
    (∀ (counts : Nat → Option Nat) (max_scrolls : Nat),
      (infinite_scroll counts max_scrolls).scroll_count ≤ max_scrolls) ∧
    (∀ (counts : Nat → Option Nat) (max_scrolls : Nat),
      (infinite_scroll counts max_scrolls).scroll_count < max_scrolls →
      (counts (infinite_scroll counts max_scrolls).scroll_count = none ∨
        counts (infinite_scroll counts max_scrolls).scroll_count =
          some (infinite_scroll counts max_scrolls).count) ∧
      (1 ≤ (infinite_scroll counts max_scrolls).scroll_count →
        counts ((infinite_scroll counts max_scrolls).scroll_count - 1) =
          some (infinite_scroll counts max_scrolls).count)) ∧
    (∀ (counts : Nat → Option Nat) (max_scrolls : Nat),
      (infinite_scroll counts max_scrolls).scroll_count = max_scrolls →
      0 < max_scrolls →
      counts (max_scrolls - 1) = some (infinite_scroll counts max_scrolls).count) := by
  have base : ∀ (counts : Nat → Option Nat) (max_scrolls : Nat),
      (infinite_scroll counts max_scrolls).scroll_count ≤ 0 + max_scrolls ∧
      ((infinite_scroll counts max_scrolls).scroll_count < 0 + max_scrolls →
        (counts (infinite_scroll counts max_scrolls).scroll_count = none ∨
          counts (infinite_scroll counts max_scrolls).scroll_count =
            some (infinite_scroll counts max_scrolls).count) ∧
        (1 ≤ (infinite_scroll counts max_scrolls).scroll_count →
          counts ((infinite_scroll counts max_scrolls).scroll_count - 1) =
            some (infinite_scroll counts max_scrolls).count)) ∧
      ((infinite_scroll counts max_scrolls).scroll_count = 0 + max_scrolls →
        0 < 0 + max_scrolls →
        counts (0 + max_scrolls - 1) = some (infinite_scroll counts max_scrolls).count) :=
    fun counts max_scrolls =>
      infiniteScrollAux_spec counts max_scrolls 0 0 0 rfl (fun h => absurd h (by omega))
  refine ⟨?_, ?_, ?_, ?_⟩
  · intro counts max_scrolls h0 h1 h2 h3
    obtain ⟨k, rfl⟩ : ∃ k, max_scrolls = k + 3 := ⟨max_scrolls - 3, by omega⟩
    have e : infinite_scroll counts (k + 3) = ⟨9, 2, 3⟩ := by
      show infiniteScrollAux counts ((k + 2) + 1) 0 0 0 = _
      simp only [infiniteScrollAux, h0]
      norm_num
      show infiniteScrollAux counts ((k + 1) + 1) 1 5 1 = _
      simp only [infiniteScrollAux, h1]
      norm_num
      show infiniteScrollAux counts (k + 1) 2 9 2 = _
      simp only [infiniteScrollAux, h2]
      norm_num
    rw [e]
    exact ⟨rfl, rfl⟩
  · intro counts max_scrolls
    have h := (base counts max_scrolls).1
    omega
  · intro counts max_scrolls hlt
    exact (base counts max_scrolls).2.1 (by omega)
  · intro counts max_scrolls heq hpos
    have h := (base counts max_scrolls).2.2 (by omega) (by omega)
    simpa using h

def countsW2 : Nat → Option Nat := fun i => if i = 0 then some 5 else some 9

theorem C2_witness :
    countsW2 0 = some 5 ∧ countsW2 1 = some 9 ∧ countsW2 2 = some 9 ∧ (3 : Nat) ≤ 20 ∧
    (infinite_scroll countsW2 20).count = 9 ∧
    (infinite_scroll countsW2 20).scroll_count = 2 :=
  ⟨rfl, rfl, rfl, by decide,
    (C2_infinite_scroll.1 countsW2 20 rfl rfl rfl (by decide)).1,
    (C2_infinite_scroll.1 countsW2 20 rfl rfl rfl (by decide)).2⟩

theorem foldl_append_filterMap {α β : Type} (f : α → Option β) :
    ∀ (l : List α) (acc : List β),
      l.foldl (fun acc x => appendIfSome acc (f x)) acc = acc ++ l.filterMap f := by
  intro l
  induction l with
  | nil => intro acc; simp
  | cons x t ih =>
    intro acc
    simp only [List.foldl_cons, ih]
    cases hx : f x <;> simp [List.filterMap_cons, hx, appendIfSome]

theorem foldl_batches_filterMap {α β : Type} (f : α → Option β) :
    ∀ (bss : List (List α)) (acc : List β),
      bss.foldl
          (fun acc b => b.foldl (fun a x => appendIfSome a (f x)) acc)
          acc
        = acc ++ bss.flatten.filterMap f := by
  intro bss
  induction bss with
  | nil => intro acc; simp
  | cons b t ih =>
    intro acc
    rw [List.foldl_cons, foldl_append_filterMap f b acc, ih]
    simp [List.filterMap_append, List.append_assoc]

/-- C5: a listing whose detail page never exposes the description selector
makes `extract_job_details` (with `max_retries = 3`) perform exactly 3
attempts with 2 backoff waits between them and return an absent result; and
`extract_multiple_jobs` is exactly the per-listing results filtered for
successes in order — an absent result never aborts the batch, the loop
simply continues with the next listing. -/
theorem C5_retry_exhaustion :
    (∀ (outcomes : Nat → AttemptOutcome) (jd : JobDiscovered) (cid : Nat) (sel : Selectors),
      (∀ i, i < 3 → (outcomes i).isFailure = true) →
      extract_job_details outcomes jd cid sel 3 = ⟨none, 3, 2⟩) ∧
    (∀ (outcomes : JobDiscovered → Nat → AttemptOutcome) (jobs : List JobDiscovered)
        (cid : Nat) (sel : Selectors) (bs : Nat), 0 < bs →
      extract_multiple_jobs outcomes jobs cid sel bs =
        jobs.filterMap (fun l => (extract_job_details (outcomes l) l cid sel 3).job)) := by
  constructor
  · intro outcomes jd cid sel h
    have hcase : ∀ i, i < 3 →
        outcomes i = AttemptOutcome.navError ∨ outcomes i = AttemptOutcome.noDescription := by
      intro i hi
      cases hh : outcomes i with
      | navError => exact Or.inl rfl
      | noDescription => exact Or.inr rfl
      | pageReady p =>
        have := h i hi
        rw [hh] at this
        simp [AttemptOutcome.isFailure] at this
    rcases hcase 0 (by omega) with h0 | h0 <;> rcases hcase 1 (by omega) with h1 | h1 <;>
      rcases hcase 2 (by omega) with h2 | h2 <;>
        simp [extract_job_details, extractAttempts, h0, h1, h2]
  · intro outcomes jobs cid sel bs hbs
    have hh := foldl_batches_filterMap
      (fun l => (extract_job_details (outcomes l) l cid sel 3).job) (batches bs jobs) []
    rw [batches_flatten bs hbs, List.nil_append] at hh
    unfold extract_multiple_jobs
    exact hh

def selW5 : Selectors :=
  ⟨pystr "div.card", pystr "h2", pystr "a", none, none, pystr "div.desc",
    none, none, none, none⟩

def jdW5 : JobDiscovered :=
  ⟨pystr "https://x.com/jobs/1", pystr "T1", none, none, pystr "h1", none⟩

theorem C5_witness :
    extract_job_details (fun _ => AttemptOutcome.noDescription) jdW5 1 selW5 3
        = ⟨none, 3, 2⟩ ∧
    extract_multiple_jobs (fun _ _ => AttemptOutcome.noDescription) [jdW5, jdW5] 1 selW5 2
        = [jdW5, jdW5].filterMap
            (fun l =>
              (extract_job_details ((fun _ _ => AttemptOutcome.noDescription) l) l 1 selW5 3).job) :=
  ⟨C5_retry_exhaustion.1 (fun _ => AttemptOutcome.noDescription) jdW5 1 selW5
      (fun _ _ => rfl),
    C5_retry_exhaustion.2 (fun _ _ => AttemptOutcome.noDescription) [jdW5, jdW5] 1 selW5 2
      (by decide)⟩

/-- C9: `discover_jobs` never propagates an exception: a navigation error, a
scroll (evaluate) error, or a raising re-query each yield the empty result
list, and a card whose extraction raises is skipped while every other card's
extraction result is kept. -/
theorem C9_discovery_containment :
    (∀ (page : SearchPage) (url : PyStr) (sel : Selectors),
      page.navOk = false → discover_jobs page url sel = []) ∧
    (∀ (page : SearchPage) (url : PyStr) (sel : Selectors),
      page.scrollOk = false → discover_jobs page url sel = []) ∧
    (∀ (page : SearchPage) (url : PyStr) (sel : Selectors),
      page.cards = none → discover_jobs page url sel = []) ∧
    (∀ (page : SearchPage) (url : PyStr) (sel : Selectors)
        (pre post : List CardOutcome),
      page.cards = some (pre ++ CardOutcome.cardError :: post) →
      discover_jobs page url sel =
        discover_jobs { page with cards := some (pre ++ post) } url sel) := by
  refine ⟨fun page url sel h => ?_, fun page url sel h => ?_, fun page url sel h => ?_,
    fun page url sel pre post h => ?_⟩
  · simp [discover_jobs, h]
  · by_cases hn : page.navOk = false <;> by_cases hc : page.cardsAppear = false <;>
      simp [discover_jobs, h, hn, hc]
  · by_cases hn : page.navOk = false <;> by_cases hc : page.cardsAppear = false <;>
      by_cases hs : page.scrollOk = false <;> simp [discover_jobs, h, hn, hc, hs]
  · by_cases hn : page.navOk = false <;> by_cases hc : page.cardsAppear = false <;>
      by_cases hs : page.scrollOk = false <;>
        simp [discover_jobs, h, hn, hc, hs, List.filterMap_append, List.filterMap_cons]

def selW9 : Selectors :=
  ⟨pystr "div.card", pystr "h2", pystr "a", none, none, pystr "div.desc",
    none, none, none, none⟩

def pageW9nav : SearchPage := ⟨false, true, true, fun _ => some 3, some []⟩

def pageW9scroll : SearchPage := ⟨true, true, false, fun _ => some 3, some []⟩

def pageW9query : SearchPage := ⟨true, true, true, fun _ => some 3, none⟩

def pageW9card : SearchPage :=
  ⟨true, true, true, fun _ => some 3, some [CardOutcome.cardError]⟩

theorem C9_witness :
    pageW9nav.navOk = false ∧ discover_jobs pageW9nav (pystr "u") selW9 = [] ∧
    pageW9scroll.scrollOk = false ∧ discover_jobs pageW9scroll (pystr "u") selW9 = [] ∧
    pageW9query.cards = none ∧ discover_jobs pageW9query (pystr "u") selW9 = [] ∧
    discover_jobs pageW9card (pystr "u") selW9 =
      discover_jobs { pageW9card with cards := some ([] ++ []) } (pystr "u") selW9 :=
  ⟨rfl, C9_discovery_containment.1 pageW9nav (pystr "u") selW9 rfl,
    rfl, C9_discovery_containment.2.1 pageW9scroll (pystr "u") selW9 rfl,
    rfl, C9_discovery_containment.2.2.1 pageW9query (pystr "u") selW9 rfl,
    C9_discovery_containment.2.2.2 pageW9card (pystr "u") selW9 [] [] rfl⟩

theorem extractAttempts_success (outcomes : Nat → AttemptOutcome) (jd : JobDiscovered)
    (cid : Nat) (sel : Selectors) :
    ∀ (remaining attempt backoffs : Nat) (j : Job),
      (extractAttempts outcomes jd cid sel attempt remaining backoffs).job = some j →
      ∃ i page, outcomes i = AttemptOutcome.pageReady page ∧
        j = mkExtractedJob page jd cid sel := by
  intro remaining
  induction remaining with
  | zero =>
    intro attempt backoffs j h
    simp [extractAttempts] at h
  | succ r ih =>
    intro attempt backoffs j h
    cases ho : outcomes attempt with
    | pageReady page =>
      simp only [extractAttempts, ho] at h
      exact ⟨attempt, page, ho, (Option.some_injective _ h).symm⟩
    | navError =>
      simp only [extractAttempts, ho] at h
      by_cases hr : r = 0
      · simp [hr] at h
      · rw [if_neg hr] at h
        exact ih (attempt + 1) (backoffs + 1) j h
    | noDescription =>
      simp only [extractAttempts, ho] at h
      by_cases hr : r = 0
      · simp [hr] at h
      · rw [if_neg hr] at h
        exact ih (attempt + 1) (backoffs + 1) j h

/-- C10 (amended): every `Job` produced by a successful `extract_job_details`
attempt carries an employment type that is never `None`: it is exactly what
`_extract_fields` put under `employment_type` when that key exists — the
stripped text of the `detail_type` match, which may be the empty string if
that element's text is empty or whitespace — and the literal `"Full-time"`
when the key is absent (selector unconfigured or unmatched). -/
theorem C10_employment_type_default (outcomes : Nat → AttemptOutcome) (jd : JobDiscovered)
    (cid : Nat) (sel : Selectors) (max_retries : Nat) (j : Job)
    (h : (extract_job_details outcomes jd cid sel max_retries).job = some j) :
    ∃ i page, outcomes i = AttemptOutcome.pageReady page ∧
      j.employment_type =
        ((extract_fields page sel).employment_type).getD (pystr "Full-time") := by
  obtain ⟨i, page, ho, hj⟩ :=
    extractAttempts_success outcomes jd cid sel max_retries 0 0 j h
  exact ⟨i, page, ho, by subst hj; rfl⟩

def selW10 : Selectors :=
  ⟨pystr "c", pystr "t", pystr "a", none, none, pystr "dd",
    none, none, none, some (pystr "ty")⟩

def jdW10 : JobDiscovered :=
  ⟨pystr "https://x.com/jobs/3", pystr "T", none, none, pystr "h3", none⟩

def pageW10b : DetailPage := fun s =>
  if s = pystr "dd" then some (pystr "desc")
  else if s = pystr "ty" then some (pystr "Contract") else none

def jobW10 : Job := mkExtractedJob pageW10b jdW10 1 selW10

def outcomesW10 : Nat → AttemptOutcome := fun _ => AttemptOutcome.pageReady pageW10b

theorem C10_witness :
    (extract_job_details outcomesW10 jdW10 1 selW10 3).job = some jobW10 ∧
    ∃ (i : Nat) (page : DetailPage), outcomesW10 i = AttemptOutcome.pageReady page ∧
      jobW10.employment_type =
        ((extract_fields page selW10).employment_type).getD (pystr "Full-time") :=
  ⟨rfl, C10_employment_type_default outcomesW10 jdW10 1 selW10 3 jobW10 rfl⟩

def pageW10e : DetailPage := fun s =>
  if s = pystr "dd" then some (pystr "desc")
  else if s = pystr "ty" then some (pystr " ") else none

/-- C10 counterexample: the `detail_type` selector is configured and matches
an element whose text strips to the empty string, and the produced job's
employment type is the empty string — the claim's "never left empty" fails
(`dict.get('employment_type', 'Full-time')` returns a present-but-empty
value as is). -/
theorem C10_counterexample :
    selOpt selW10.detail_type = some (pystr "ty") ∧
    pageW10e (pystr "ty") = some (pystr " ") ∧
    ((extract_job_details (fun _ => AttemptOutcome.pageReady pageW10e) jdW10 1 selW10 3).job.map
        Job.employment_type) = some [] ∧
    ([] : PyStr).isEmpty = true := by
  exact ⟨by decide, by decide, by decide, rfl⟩

/-- C1: with 45 new listings and `batch_size = 20`, the partition is exactly
3 contiguous batches of sizes 20, 20, 5; and when batch 1 extracts
successfully and batch 2 raises an unrecovered exception, the run ends with
exactly batch 1's extracted jobs persisted, the run record marked `failed`
with the error message, and batch 3 never processed (the outcome is a
function of the first two batches only). -/
theorem C1_batch_failure (new_jobs : List JobDiscovered) (h45 : new_jobs.length = 45)
    (extract : Nat → List JobDiscovered → Except PyStr (List Job)) (js : List Job) (e : PyStr)
    (h0 : extract 0 (new_jobs.take 20) = Except.ok js)
    (h1 : extract 1 ((new_jobs.drop 20).take 20) = Except.error e) :
    (batches 20 new_jobs).map List.length = [20, 20, 5] ∧
    scrape_company_batches extract 20 new_jobs =
      ⟨js, ⟨RunStatus.failed, none, some e⟩⟩ := by
  have hne : new_jobs ≠ [] := by
    intro hh
    rw [hh] at h45
    simp at h45
  have hd1 : (new_jobs.drop 20).length = 25 := by
    simp [List.length_drop, h45]
  have hd2 : ((new_jobs.drop 20).drop 20).length = 5 := by
    simp [List.length_drop, h45]
  have hd3 : (((new_jobs.drop 20).drop 20).drop 20).length = 0 := by
    simp [List.length_drop, h45]
  have hb : batches 20 new_jobs =
      [new_jobs.take 20, (new_jobs.drop 20).take 20, (new_jobs.drop 20).drop 20] := by
    rw [batches_cons 20 (by omega) new_jobs hne,
      batches_cons 20 (by omega) (new_jobs.drop 20) (by intro hh; rw [hh] at hd1; simp at hd1),
      batches_cons 20 (by omega) ((new_jobs.drop 20).drop 20)
        (by intro hh; rw [hh] at hd2; simp at hd2),
      List.eq_nil_of_length_eq_zero hd3, batches_nil,
      @List.take_of_length_le _ 20 ((new_jobs.drop 20).drop 20) (by omega)]
  constructor
  · rw [hb]
    simp [List.length_take, h45, hd1, hd2]
  · have hnotempty : new_jobs.isEmpty = false := by
      cases new_jobs with
      | nil => exact absurd rfl hne
      | cons a t => rfl
    rw [scrape_company_batches, hnotempty]
    simp only [Bool.false_eq_true, if_false, hb, runBatchesGo, h0, h1]
    simp

def jdW1 : JobDiscovered :=
  ⟨pystr "https://x.com/jobs/0", pystr "T", none, none, pystr "h0", none⟩

def newJobsW1 : List JobDiscovered := List.replicate 45 jdW1

def extractW1 : Nat → List JobDiscovered → Except PyStr (List Job) :=
  fun i _ => if i = 0 then Except.ok [] else Except.error (pystr "browser failed")

theorem C1_witness :
    newJobsW1.length = 45 ∧
    extractW1 0 (newJobsW1.take 20) = Except.ok [] ∧
    extractW1 1 ((newJobsW1.drop 20).take 20) = Except.error (pystr "browser failed") ∧
    (batches 20 newJobsW1).map List.length = [20, 20, 5] ∧
    scrape_company_batches extractW1 20 newJobsW1 =
      ⟨[], ⟨RunStatus.failed, none, some (pystr "browser failed")⟩⟩ :=
  ⟨by simp [newJobsW1], rfl, rfl,
    (C1_batch_failure newJobsW1 (by simp [newJobsW1]) extractW1 [] (pystr "browser failed")
      rfl rfl).1,
    (C1_batch_failure newJobsW1 (by simp [newJobsW1]) extractW1 [] (pystr "browser failed")
      rfl rfl).2⟩

theorem addDiscovered_cons (acc : List JobDiscovered) (cat : PyStr) (j : JobDiscovered)
    (t : List JobDiscovered) :
    addDiscovered acc cat (j :: t) =
      addDiscovered
        (if acc.any (fun k => k.url_hash == j.url_hash) then acc
         else acc ++ [{ j with search_category := some cat }]) cat t := rfl

theorem addDiscovered_nodup :
    ∀ (jobs acc : List JobDiscovered) (cat : PyStr),
      (acc.map JobDiscovered.url_hash).Nodup →
      ((addDiscovered acc cat jobs).map JobDiscovered.url_hash).Nodup := by
  intro jobs
  induction jobs with
  | nil => intro acc cat h; exact h
  | cons j t ih =>
    intro acc cat h
    rw [addDiscovered_cons]
    by_cases hany : acc.any (fun k => k.url_hash == j.url_hash) = true
    · rw [if_pos hany]
      exact ih acc cat h
    · rw [if_neg hany]
      apply ih
      have hmem : j.url_hash ∉ acc.map JobDiscovered.url_hash := by
        intro hm
        obtain ⟨k, hk, hkh⟩ := List.mem_map.mp hm
        exact hany (List.any_eq_true.mpr ⟨k, hk, by simp [hkh]⟩)
      simp only [List.map_append, List.map_cons, List.map_nil]
      exact List.Nodup.append h (List.nodup_singleton _)
        (by simpa [List.disjoint_singleton] using hmem)

theorem addDiscovered_find? :
    ∀ (jobs acc : List JobDiscovered) (cat : PyStr) (h : PyStr),
      (addDiscovered acc cat jobs).find? (fun k => k.url_hash == h) =
        (acc.find? (fun k => k.url_hash == h)).or
          ((jobs.find? (fun j => j.url_hash == h)).map
            (fun j => { j with search_category := some cat })) := by
  intro jobs
  induction jobs with
  | nil =>
    intro acc cat h
    rw [show addDiscovered acc cat [] = acc from rfl]
    simp
  | cons j t ih =>
    intro acc cat h
    rw [addDiscovered_cons]
    by_cases hany : acc.any (fun k => k.url_hash == j.url_hash) = true
    · rw [if_pos hany, ih]
      by_cases hj : (j.url_hash == h) = true
      · have hsome : (acc.find? (fun k => k.url_hash == h)).isSome := by
          obtain ⟨k, hk, hkh⟩ := List.any_eq_true.mp hany
          refine List.find?_isSome.mpr ⟨k, hk, ?_⟩
          have h1 : k.url_hash = j.url_hash := by simpa using hkh
          have h2 : j.url_hash = h := by simpa using hj
          simp [h1, h2]
        obtain ⟨v, hv⟩ := Option.isSome_iff_exists.mp hsome
        rw [hv]
        rfl
      · rw [@List.find?_cons_of_neg _ (fun k => k.url_hash == h) j t hj]
    · rw [if_neg hany, ih, List.find?_append]
      by_cases hj : (j.url_hash == h) = true
      · simp only [List.find?_cons, List.find?_nil, hj, Option.or_assoc, Option.map_some]
        congr 1
      · simp only [List.find?_cons, List.find?_nil, Bool.not_eq_true] at hj ⊢
        simp only [hj, Option.or_none]

theorem foldl_addDiscovered_nodup (jobsOf : PyStr → List JobDiscovered) :
    ∀ (cats : List PyStr) (acc : List JobDiscovered),
      (acc.map JobDiscovered.url_hash).Nodup →
      ((cats.foldl (fun acc c => addDiscovered acc c (jobsOf c)) acc).map
          JobDiscovered.url_hash).Nodup := by
  intro cats
  induction cats with
  | nil => intro acc h; exact h
  | cons c cs ih =>
    intro acc h
    exact ih (addDiscovered acc c (jobsOf c)) (addDiscovered_nodup (jobsOf c) acc c h)

theorem foldl_addDiscovered_find? (jobsOf : PyStr → List JobDiscovered) :
    ∀ (cats : List PyStr) (acc : List JobDiscovered) (h : PyStr),
      (cats.foldl (fun acc c => addDiscovered acc c (jobsOf c)) acc).find?
          (fun k => k.url_hash == h) =
        (acc.find? (fun k => k.url_hash == h)).or
          (((cats.map (fun c => (jobsOf c).map (fun j => (c, j)))).flatten.find?
              (fun p => p.2.url_hash == h)).map
            (fun p => { p.2 with search_category := some p.1 })) := by
  intro cats
  induction cats with
  | nil => intro acc h; simp
  | cons c cs ih =>
    intro acc h
    rw [List.foldl_cons, ih, addDiscovered_find?, Option.or_assoc]
    congr 1
    rw [List.map_cons, List.flatten_cons, List.find?_append]
    have hmap : ((jobsOf c).map (fun j => (c, j))).find? (fun p => p.2.url_hash == h) =
        ((jobsOf c).find? (fun j => j.url_hash == h)).map (fun j => (c, j)) := by
      rw [List.find?_map]
      rfl
    rw [hmap]
    cases hfc : (jobsOf c).find? (fun j => j.url_hash == h) with
    | none => simp
    | some v => simp

def discovered_pairs (pages : PyStr → SearchPage) (company : Company)
    (cats : List PyStr) : List (PyStr × JobDiscovered) :=
  (cats.map (fun c =>
    (discover_jobs (pages (search_url_for company c)) (search_url_for company c)
        company.selectors).map (fun j => (c, j)))).flatten

theorem extract_job_from_card_hash (c : Card) (sel : Selectors) (b : PyStr)
    (j : JobDiscovered) (h : extract_job_from_card c sel b = some j) :
    j.url_hash = generate_url_hash j.url := by
  unfold extract_job_from_card at h
  dsimp only at h
  cases hju : Option.map (normalize_url b)
      (match c.href sel.job_link with | some a => a | none => none) with
  | none =>
    rw [hju] at h
    dsimp only at h
    exact absurd h (by simp)
  | some u =>
    rw [hju] at h
    cases ht : textOrNone (c.text sel.job_title) with
    | none => rw [ht] at h; exact absurd h (by simp)
    | some t =>
      rw [ht] at h
      dsimp only at h
      by_cases he : (u.isEmpty || t.isEmpty) = true
      · rw [if_pos he] at h
        exact absurd h (by simp)
      · rw [if_neg he] at h
        injection h with h2
        subst h2
        rfl

/-- C3: the merged result of `discover_all_jobs_for_company` has no two
entries with the same fingerprint; the entry found for a fingerprint is
exactly the first listing carrying it in category-then-listing discovery
order, all fields taken from that first-seen listing, with `search_category`
stamped to the category that produced it (so a fingerprint is in the merged
set iff some category search produced it, and two categories yielding
listings with the same resolved URL — which forces the same fingerprint —
contribute one entry tagged with the first category). -/
theorem C3_dedup_first_seen :
    (∀ (pages : PyStr → SearchPage) (company : Company) (cats : List PyStr),
      ((discover_all_jobs_for_company pages company cats).map
          JobDiscovered.url_hash).Nodup) ∧
    (∀ (pages : PyStr → SearchPage) (company : Company) (cats : List PyStr) (h : PyStr),
      (discover_all_jobs_for_company pages company cats).find? (fun k => k.url_hash == h) =
        ((discovered_pairs pages company cats).find? (fun p => p.2.url_hash == h)).map
          (fun p => { p.2 with search_category := some p.1 })) ∧
    (∀ (c1 c2 : Card) (sel1 sel2 : Selectors) (b1 b2 : PyStr) (j1 j2 : JobDiscovered),
      extract_job_from_card c1 sel1 b1 = some j1 →
      extract_job_from_card c2 sel2 b2 = some j2 →
      j1.url = j2.url → j1.url_hash = j2.url_hash) := by
  refine ⟨fun pages company cats => ?_, fun pages company cats h => ?_,
    fun c1 c2 sel1 sel2 b1 b2 j1 j2 h1 h2 hu => ?_⟩
  · exact foldl_addDiscovered_nodup
      (fun c => discover_jobs (pages (search_url_for company c))
        (search_url_for company c) company.selectors) cats [] (by simp)
  · have hh := foldl_addDiscovered_find?
      (fun c => discover_jobs (pages (search_url_for company c))
        (search_url_for company c) company.selectors) cats [] h
    simpa [discover_all_jobs_for_company, discovered_pairs] using hh
  · rw [extract_job_from_card_hash c1 sel1 b1 j1 h1,
      extract_job_from_card_hash c2 sel2 b2 j2 h2, hu]

def cardW3 : Card :=
  ⟨fun s => if s = pystr "h2" then some (pystr "Backend Engineer") else none,
   fun s => if s = pystr "a" then some (some (pystr "https://x.com/j/1")) else none⟩

def selW3 : Selectors :=
  ⟨pystr "div.card", pystr "h2", pystr "a", none, none, pystr "dd",
    none, none, none, none⟩

def baseW3 : PyStr := pystr "https://x.com/s?q="

def jW3 : JobDiscovered :=
  ⟨normalize_url baseW3 (pystr "https://x.com/j/1"),
   pyStrip (pystr "Backend Engineer"), none, none,
   generate_url_hash (normalize_url baseW3 (pystr "https://x.com/j/1")), none⟩

theorem C3_witness :
    extract_job_from_card cardW3 selW3 baseW3 = some jW3 ∧
    jW3.url = jW3.url ∧ jW3.url_hash = jW3.url_hash :=
  ⟨rfl, rfl,
    C3_dedup_first_seen.2.2 cardW3 cardW3 selW3 selW3 baseW3 baseW3 jW3 jW3 rfl rfl rfl⟩

theorem add32_lt (a b : Nat) : add32 a b < w32 :=
  Nat.mod_lt _ (by norm_num [w32])

theorem sha_compress_mem (hs block : List Nat) :
    ∀ x ∈ sha_compress hs block, x < w32 := by
  intro x hx
  unfold sha_compress at hx
  obtain ⟨p, _, rfl⟩ := List.mem_map.mp hx
  exact add32_lt p.1 p.2

theorem sha_compress_len (hs block : List Nat) :
    (sha_compress hs block).length ≤ hs.length := by
  unfold sha_compress
  rw [List.length_map, List.length_zip]
  exact Nat.min_le_left _ _

theorem sha256_words_spec (msg : List Nat) :
    (sha256_words msg).length ≤ 8 ∧ ∀ x ∈ sha256_words msg, x < w32 := by
  unfold sha256_words
  generalize (batches 64 (sha256_pad msg)) = blocks
  have key : ∀ (blocks : List (List Nat)) (hs : List Nat), hs.length ≤ 8 →
      (∀ x ∈ hs, x < w32) →
      (blocks.foldl sha_compress hs).length ≤ 8 ∧
        ∀ x ∈ blocks.foldl sha_compress hs, x < w32 := by
    intro blocks
    induction blocks with
    | nil => intro hs h1 h2; exact ⟨h1, h2⟩
    | cons b bs ih =>
      intro hs h1 h2
      exact ih (sha_compress hs b) (le_trans (sha_compress_len hs b) h1)
        (sha_compress_mem hs b)
  exact key blocks sha_H0 (by norm_num [sha_H0]) (by decide)

theorem foldl_digit_bound :
    ∀ (l : List Nat) (k acc : Nat), (∀ x ∈ l, x < w32) → acc < w32 ^ k →
      l.foldl (fun a w => a * w32 + w) acc < w32 ^ (k + l.length) := by
  intro l
  induction l with
  | nil =>
    intro k acc _ h2
    simpa using h2
  | cons x t ih =>
    intro k acc h1 h2
    rw [List.foldl_cons]
    have hx : x < w32 := h1 x (by simp)
    have hacc : acc * w32 + x < w32 ^ (k + 1) := by
      have h3 : acc * w32 + x < (acc + 1) * w32 := by
        have : (acc + 1) * w32 = acc * w32 + w32 := by ring
        omega
      have h4 : (acc + 1) * w32 ≤ w32 ^ k * w32 :=
        Nat.mul_le_mul_right _ (by omega)
      calc acc * w32 + x < (acc + 1) * w32 := h3
        _ ≤ w32 ^ k * w32 := h4
        _ = w32 ^ (k + 1) := (pow_succ w32 k).symm
    have hres := ih (k + 1) (acc * w32 + x) (fun y hy => h1 y (by simp [hy])) hacc
    have harith : k + 1 + t.length = k + (t.length + 1) := by omega
    rw [harith] at hres
    simpa using hres

theorem sha256_nat_lt (msg : List Nat) : sha256_nat msg < w32 ^ 8 := by
  unfold sha256_nat
  obtain ⟨hlen, hmem⟩ := sha256_words_spec msg
  have h := foldl_digit_bound (sha256_words msg) 0 0 hmem (by norm_num)
  calc (sha256_words msg).foldl (fun a w => a * w32 + w) 0
      < w32 ^ (0 + (sha256_words msg).length) := h
    _ ≤ w32 ^ 8 := Nat.pow_le_pow_right (by norm_num [w32]) (by omega)

/-- Infinite family of distinct absolute URLs used for the pigeonhole
argument: `http://a/`, `http://a/a`, `http://a/aa`, ... -/
def urlFam (n : Nat) : PyStr :=
  'h' :: 't' :: 't' :: 'p' :: ':' :: '/' :: '/' :: 'a' :: '/' :: List.replicate n 'a'

theorem urlFam_startsWith (n : Nat) :
    pyStartsWith (urlFam n) (pystr "http") = true := by
  rw [show pystr "http" = ['h', 't', 't', 'p'] from rfl]
  simp [pyStartsWith, urlFam, List.isPrefixOf]

theorem urlFam_norm (base : PyStr) (n : Nat) :
    normalize_url base (urlFam n) = urlFam n := by
  unfold normalize_url
  rw [if_neg]
  rintro ⟨_, h2⟩
  rw [urlFam_startsWith n] at h2
  simp at h2

theorem urlFam_inj : Function.Injective urlFam := by
  intro m n h
  have := congrArg List.length h
  simpa [urlFam] using this

def baseC4 : PyStr := pystr "https://example.com/careers?search="

/-- C4 counterexample: the claimed equivalence "fingerprints are equal iff
the normalized absolute URLs are equal" is false: `generate_url_hash` is
SHA-256, whose digests form the finite set of 256-bit values, while there
are infinitely many distinct normalized absolute URLs, so two distinct
normalized URLs must share a fingerprint (pigeonhole); the forward direction
of the iff fails for such a pair. -/
theorem C4_counterexample :
    ¬ (∀ u1 u2 : PyStr,
        (generate_url_hash (normalize_url baseC4 u1) =
            generate_url_hash (normalize_url baseC4 u2)) ↔
          normalize_url baseC4 u1 = normalize_url baseC4 u2) := by
  intro hclaim
  obtain ⟨m, n, hmn, hfeq⟩ :=
    Finite.exists_ne_map_eq_of_infinite
      (fun n : Nat =>
        (⟨sha256_nat (utf8Encode (urlFam n)), sha256_nat_lt _⟩ : Fin (w32 ^ 8)))
  have hdig : sha256_nat (utf8Encode (urlFam m)) = sha256_nat (utf8Encode (urlFam n)) :=
    congrArg Fin.val hfeq
  have hhash : generate_url_hash (urlFam m) = generate_url_hash (urlFam n) := by
    unfold generate_url_hash
    rw [hdig]
  have h2 := (hclaim (urlFam m) (urlFam n)).mp
    (by rw [urlFam_norm baseC4 m, urlFam_norm baseC4 n]; exact hhash)
  rw [urlFam_norm baseC4 m, urlFam_norm baseC4 n] at h2
  exact hmn (urlFam_inj h2)

theorem dropWhile_head_false {α : Type} (p : α → Bool) :
    ∀ (l : List α) (a : α) (t : List α), l.dropWhile p = a :: t → p a = false := by
  intro l
  induction l with
  | nil => intro a t h; simp [List.dropWhile] at h
  | cons x xs ih =>
    intro a t h
    rw [List.dropWhile_cons] at h
    by_cases hx : p x = true
    · rw [if_pos hx] at h
      exact ih a t h
    · rw [if_neg hx] at h
      have h1 : x = a := by injection h
      subst h1
      cases hpx : p x with
      | false => rfl
      | true => exact absurd hpx hx

theorem dirOf_prefix (base : PyStr) : dirOf base <+: base := by
  have hsuffix : (base.reverse.dropWhile (fun c => c != '/')) <:+ base.reverse :=
    List.dropWhile_suffix _
  have h := List.reverse_prefix.mpr hsuffix
  rw [List.reverse_reverse] at h
  exact h

theorem dirOf_eq_nil_or_http (base : PyStr)
    (hb : pyStartsWith base (pystr "http") = true) :
    dirOf base = [] ∨ pyStartsWith (dirOf base) (pystr "http") = true := by
  cases hd : dirOf base with
  | nil => exact Or.inl rfl
  | cons d0 dt =>
    right
    have hpre : (d0 :: dt) <+: base := hd ▸ dirOf_prefix base
    have hmem : '/' ∈ (d0 :: dt) := by
      have hrev : (d0 :: dt).reverse = base.reverse.dropWhile (fun c => c != '/') := by
        rw [← hd]
        unfold dirOf
        rw [List.reverse_reverse]
      cases hw : base.reverse.dropWhile (fun c => c != '/') with
      | nil =>
        rw [hw] at hrev
        exact absurd hrev (by simp)
      | cons w0 wt =>
        have hpw := dropWhile_head_false (fun c => c != '/') base.reverse w0 wt hw
        have hw0 : w0 = '/' := by simpa using hpw
        have hin : w0 ∈ (d0 :: dt).reverse := by
          rw [hrev, hw]
          simp
        rw [hw0] at hin
        exact List.mem_reverse.mp hin
    have hhttp : ['h', 't', 't', 'p'] <+: base := by
      have h := List.isPrefixOf_iff_prefix.mp hb
      exact h
    rcases Nat.lt_or_ge 4 (d0 :: dt).length with hlen | hlen
    · have hp2 : ['h', 't', 't', 'p'] <+: (d0 :: dt) :=
        List.prefix_of_prefix_length_le hhttp hpre
          (by simp only [List.length_cons] at hlen; simp; omega)
      rw [show pystr "http" = ['h', 't', 't', 'p'] from rfl, pyStartsWith]
      exact List.isPrefixOf_iff_prefix.mpr hp2
    · exfalso
      have hdh : (d0 :: dt) <+: ['h', 't', 't', 'p'] :=
        List.prefix_of_prefix_length_le hpre hhttp (by simpa using hlen)
      have : '/' ∈ ['h', 't', 't', 'p'] := hdh.subset hmem
      simp at this

theorem takeWhile_http (base : PyStr) (hb : ['h', 't', 't', 'p'] <+: base) :
    ∃ s, base.takeWhile isSchemeChar = 'h' :: 't' :: 't' :: 'p' :: s := by
  obtain ⟨r, rfl⟩ := hb
  refine ⟨r.takeWhile isSchemeChar, ?_⟩
  show List.takeWhile isSchemeChar ('h' :: 't' :: 't' :: 'p' :: r) = _
  simp [List.takeWhile_cons, show isSchemeChar 'h' = true from by decide,
    show isSchemeChar 't' = true from by decide,
    show isSchemeChar 'p' = true from by decide]

theorem schemeSplit_some_sch (u sch rest : PyStr) (h : schemeSplit u = some (sch, rest)) :
    sch = u.takeWhile isSchemeChar := by
  unfold schemeSplit at h
  dsimp only at h
  split at h
  · split at h
    · injection h with h1
      exact (congrArg Prod.fst h1).symm
    · exact absurd h (by simp)
  · exact absurd h (by simp)

theorem splitAbs_some_sch (u sch auth path : PyStr)
    (h : splitAbs u = some (sch, auth, path)) :
    ∃ rest, schemeSplit u = some (sch, rest) := by
  unfold splitAbs at h
  cases hs : schemeSplit u with
  | none =>
    rw [hs] at h
    exact absurd h (by simp)
  | some pr =>
    obtain ⟨sch', rest⟩ := pr
    rw [hs] at h
    dsimp only at h
    by_cases hpp : pyStartsWith rest (pystr "//") = true
    · rw [if_pos hpp] at h
      injection h with h1
      have h2 : sch' = sch := congrArg Prod.fst h1
      subst h2
      exact ⟨rest, rfl⟩
    · rw [if_neg hpp] at h
      exact absurd h (by simp)

theorem sch_http (base sch rest : PyStr)
    (hb : pyStartsWith base (pystr "http") = true)
    (h : schemeSplit base = some (sch, rest)) : ['h', 't', 't', 'p'] <+: sch := by
  have hp : ['h', 't', 't', 'p'] <+: base := List.isPrefixOf_iff_prefix.mp hb
  obtain ⟨s, hs⟩ := takeWhile_http base hp
  rw [schemeSplit_some_sch base sch rest h, hs]
  exact ⟨s, rfl⟩

theorem startsWith_of_prefix (l X : PyStr) (h : ['h', 't', 't', 'p'] <+: l) :
    pyStartsWith (l ++ X) (pystr "http") = true := by
  rw [show pystr "http" = ['h', 't', 't', 'p'] from rfl, pyStartsWith]
  exact List.isPrefixOf_iff_prefix.mpr (h.trans (List.prefix_append l X))

theorem urljoin_http_stable (base : PyStr)
    (hb : pyStartsWith base (pystr "http") = true)
    (u : PyStr) (hu : u.isEmpty = false) :
    pyStartsWith (urljoin base u) (pystr "http") = true ∨
      urljoin base (urljoin base u) = urljoin base u := by
  by_cases hsch : (schemeSplit u).isSome = true
  · right
    have h1 : urljoin base u = u := by simp [urljoin, hu, hsch]
    rw [h1]
    exact h1
  · have hsch' : schemeSplit u = none := by
      cases hx : schemeSplit u with
      | none => rfl
      | some v => rw [hx] at hsch; simp at hsch
    cases hsab : splitAbs base with
    | some tri =>
      obtain ⟨sch, auth, path⟩ := tri
      left
      obtain ⟨rest, hss⟩ := splitAbs_some_sch base sch auth path hsab
      have hpre : ['h', 't', 't', 'p'] <+: sch := sch_http base sch rest hb hss
      have hjoin : urljoin base u =
          (if pyStartsWith u (pystr "//") then sch ++ ':' :: u
           else if pyStartsWith u (pystr "/") then sch ++ pystr "://" ++ auth ++ u
           else sch ++ pystr "://" ++ auth ++ pathDir path ++ u) := by
        simp [urljoin, hu, hsch', hsab]
      rw [hjoin]
      by_cases h2 : pyStartsWith u (pystr "//") = true
      · rw [if_pos h2]
        exact startsWith_of_prefix sch (':' :: u) hpre
      · rw [if_neg h2]
        by_cases h3 : pyStartsWith u (pystr "/") = true
        · rw [if_pos h3, List.append_assoc, List.append_assoc]
          exact startsWith_of_prefix sch _ hpre
        · rw [if_neg h3, List.append_assoc, List.append_assoc, List.append_assoc]
          exact startsWith_of_prefix sch _ hpre
    | none =>
      have hjoin : urljoin base u =
          (if pyStartsWith u (pystr "/") then u else dirOf base ++ u) := by
        simp [urljoin, hu, hsch', hsab]
      by_cases h3 : pyStartsWith u (pystr "/") = true
      · right
        have h1 : urljoin base u = u := by rw [hjoin, if_pos h3]
        rw [h1]
        exact h1
      · rcases dirOf_eq_nil_or_http base hb with hnil | hhttp
        · right
          have h1 : urljoin base u = u := by
            rw [hjoin, if_neg h3, hnil, List.nil_append]
          rw [h1]
          exact h1
        · left
          rw [hjoin, if_neg h3]
          exact startsWith_of_prefix (dirOf base) u (List.isPrefixOf_iff_prefix.mp hhttp)

/-- C4 (amended): the fingerprint is a deterministic pure function of the
normalized URL — equal normalized absolute forms always yield equal
fingerprints — and the relative-to-absolute resolution applied during
discovery is idempotent (for the http(s) search URLs the pipeline uses as
bases); the converse direction of the original claim (equal fingerprints
only for equal normalized URLs) cannot hold for all URLs, since SHA-256 has
finitely many digests (see the counterexample). -/
theorem C4_fingerprint_of_normalized :
    (∀ (base u1 u2 : PyStr), normalize_url base u1 = normalize_url base u2 →
      generate_url_hash (normalize_url base u1) =
        generate_url_hash (normalize_url base u2)) ∧
    (∀ (base u : PyStr), pyStartsWith base (pystr "http") = true →
      normalize_url base (normalize_url base u) = normalize_url base u) := by
  constructor
  · intro base u1 u2 h
    rw [h]
  · intro base u hb
    by_cases hc : (u ≠ [] ∧ pyStartsWith u (pystr "http") = false)
    · have h1 : normalize_url base u = urljoin base u := by
        rw [normalize_url, if_pos hc]
      have hu : u.isEmpty = false := by
        cases u with
        | nil => exact absurd rfl hc.1
        | cons a t => rfl
      rcases urljoin_http_stable base hb u hu with hh | hh
      · rw [h1, normalize_url, if_neg]
        rintro ⟨_, hfalse⟩
        rw [hh] at hfalse
        simp at hfalse
      · rw [h1, normalize_url]
        split
        · exact hh
        · rfl
    · have h1 : normalize_url base u = u := by rw [normalize_url, if_neg hc]
      rw [h1]
      exact h1

theorem C4_witness :
    pyStartsWith (pystr "https://x.com/s?q=") (pystr "http") = true ∧
    normalize_url (pystr "https://x.com/s?q=")
        (normalize_url (pystr "https://x.com/s?q=") (pystr "jobs/1"))
      = normalize_url (pystr "https://x.com/s?q=") (pystr "jobs/1") ∧
    normalize_url (pystr "https://x.com/s?q=") (pystr "jobs/1")
      = normalize_url (pystr "https://x.com/s?q=") (pystr "jobs/1") ∧
    generate_url_hash (normalize_url (pystr "https://x.com/s?q=") (pystr "jobs/1"))
      = generate_url_hash (normalize_url (pystr "https://x.com/s?q=") (pystr "jobs/1")) :=
  ⟨by decide,
    C4_fingerprint_of_normalized.2 (pystr "https://x.com/s?q=") (pystr "jobs/1") (by decide),
    rfl,
    C4_fingerprint_of_normalized.1 (pystr "https://x.com/s?q=") (pystr "jobs/1")
      (pystr "jobs/1") rfl⟩
